import Mathlib

/-!
Verification development for the PTS (sequence-number) gap-detection and
reordering core `PtsWaiter` of `src/Telegram/SourceFiles/data/data_peer.cpp`
(lines 1005-1150).

Shallow embedding notes:
* `int32` quantities (`pts`, `count`, `_good`, `_last`, `_count`) are modelled
  as `Int`; C++ signed-overflow is undefined behaviour, so the accumulator
  arithmetic is modelled on unbounded integers.
* The `uint64` key arithmetic of `PtsWaiter::ptsKey`
  (`uint64(uint32(pts)) << 32 | (++_skippedKey)`) is modelled exactly, with
  the unsigned conversion `pts mod 2^32`, the 64-bit wraparound of the
  insertion counter, and the bitwise or.
* `QMap<uint64, T>` is modelled as an association list sorted by key in
  strictly ascending order, with insert-or-replace semantics (`qmapInsert`),
  which is how `QMap::insert` and its ascending iteration behave.
* The two external collaborators are modelled as an event trace:
  `App::main()->ptsWaiterStartTimerFor(channel, ms)` becomes `Event.timer ms`
  (the model tracks a single channel, so the channel argument is dropped, and
  `App::main()` is assumed non-null), and
  `Auth().api().applyUpdateNoPtsCheck` / `applyUpdatesNoPtsCheck` become
  `Event.applyUpdate` / `Event.applyUpdates`.  An `MTPUpdate` payload carries
  its own pts tag, so a buffered payload is modelled as the pair
  (pts it was ingested with, an abstract body).
* Re-entrant calls from inside the applier cannot occur in this pure model, so
  a drain runs atomically; `_applySkippedLevel` is still modelled faithfully
  as state (incremented and decremented around the loop, and zeroed by
  `clearSkippedUpdates`).
-/

namespace PtsWaiter

/-- Body of a buffered update; the payload contents are treated as an
abstract value (the code never inspects them). -/
abbrev Payload := Nat

/-- Mirror of the source enum `PtsSkippedQueue`: which of the two payload maps
a queue entry lives in. -/
inductive PtsSkippedQueue where
  | SkippedUpdate
  | SkippedUpdates
deriving DecidableEq, Repr

/-- Externally visible effects of the waiter: timer (re)scheduling requests and
calls into the external applier.  `timer ms` models
`App::main()->ptsWaiterStartTimerFor(channel, ms)`; an apply event records the
pts tag carried inside the applied payload together with its body. -/
inductive Event where
  | timer (ms : Int)
  | applyUpdate (pts : Int) (body : Payload)
  | applyUpdates (pts : Int) (body : Payload)
deriving DecidableEq, Repr

/-- State of one `PtsWaiter` (the fields of the class; the field initializers
live in the header, see `initial`). -/
structure Waiter where
  queue : List (Nat × PtsSkippedQueue)
  updateQueue : List (Nat × (Int × Payload))
  updatesQueue : List (Nat × (Int × Payload))
  skippedKey : Nat
  good : Int
  last : Int
  count : Int
  applySkippedLevel : Nat
  requesting : Bool
  waitingForSkipped : Bool
  waitingForShortPoll : Bool
  inited : Bool
deriving DecidableEq, Repr

/-- Modelled from the spec: the fresh `SequenceState` (the class's field
initializers live in the header, which is not under `src/`).  The state starts
uninitialized with clear flags, an empty queue, and zeroed counters
(`countAccumulated` is a running sum; the `confirmed` watermark and `lastSeen`
default to zero before trust-on-first-use establishes a baseline). -/
def initial : Waiter :=
  { queue := [], updateQueue := [], updatesQueue := [], skippedKey := 0,
    good := 0, last := 0, count := 0, applySkippedLevel := 0,
    requesting := false, waitingForSkipped := false,
    waitingForShortPoll := false, inited := false }

/-- Modelled from the spec: `PtsWaiter::init` lives in the header (not under
`src/`).  The spec's gap-check pseudocode seeds `confirmed = lastSeen = pts`
and flips `initialized`; the spec's contiguous-advance example (baseline at
pts=100, then count reaching `lastSeen` exactly) additionally fixes
`countAccumulated = pts` at the baseline. -/
def init (w : Waiter) (pts : Int) : Waiter :=
  { w with good := pts, last := pts, count := pts, inited := true }

/-- Modelled from the spec: the `WaitForSkippedTimeout` constant is declared
outside `src/`; the spec calls it the standard gap timeout, on the order of a
second (milliseconds). -/
def WaitForSkippedTimeout : Int := 1000

/-- C-style conversion `uint32(pts)` of a signed 32-bit value: reduction
modulo `2^32`. -/
def int32ToUInt32 (pts : Int) : Nat := (pts % (2 ^ 32)).toNat

/-- The key `PtsWaiter::ptsKey` computes for a fresh queue entry:
`uint64(uint32(pts)) << 32 | (++_skippedKey)`, where `skippedKey` is the value
of the member before the increment. -/
def ptsKeyVal (skippedKey : Nat) (pts : Int) : Nat :=
  Nat.lor (int32ToUInt32 pts <<< 32) ((skippedKey + 1) % 2 ^ 64)

/-- Ordered insert-or-replace into a key-sorted association list: the
behaviour of `QMap::insert`. -/
def qmapInsert (k : Nat) (v : α) : List (Nat × α) → List (Nat × α)
  | [] => [(k, v)]
  | (k', v') :: rest =>
    if k < k' then (k, v) :: (k', v') :: rest
    else if k = k' then (k, v) :: rest
    else (k', v') :: qmapInsert k v rest

/-- Lookup in an association list (the behaviour of `QMap::value`, returning
`none` where the C++ call would default-construct). -/
def qmapLookup (k : Nat) : List (Nat × α) → Option α
  | [] => none
  | (k', v') :: rest => if k' = k then some v' else qmapLookup k rest

/-- `QMap::value` with a default value for a missing key. -/
def qmapValue (k : Nat) (d : α) (l : List (Nat × α)) : α :=
  (qmapLookup k l).getD d

/-- `PtsWaiter::checkForWaiting`: when neither waiting reason remains, send the
`-1` cancellation sentinel to the timer service. -/
def checkForWaiting (w : Waiter) : List Event :=
  if w.waitingForSkipped = false ∧ w.waitingForShortPoll = false then
    [Event.timer (-1)]
  else []

/-- `PtsWaiter::setWaitingForSkipped`: non-negative `ms` arms the timer and
records the gap-fill waiting reason; negative `ms` clears the reason and
re-derives whether any reason remains. -/
def setWaitingForSkipped (w : Waiter) (ms : Int) : Waiter × List Event :=
  if 0 ≤ ms then
    ({ w with waitingForSkipped := true }, [Event.timer ms])
  else
    let w1 := { w with waitingForSkipped := false }
    (w1, checkForWaiting w1)

/-- `PtsWaiter::setWaitingForShortPoll`: same contract for the poll reason. -/
def setWaitingForShortPoll (w : Waiter) (ms : Int) : Waiter × List Event :=
  if 0 ≤ ms then
    ({ w with waitingForShortPoll := true }, [Event.timer ms])
  else
    let w1 := { w with waitingForShortPoll := false }
    (w1, checkForWaiting w1)

/-- `_updateQueue.insert(ptsKey(SkippedUpdate, pts), update)`: `ptsKey`
increments the insertion counter (64-bit wraparound), inserts the key into
`_queue`, and the returned key indexes the payload into `_updateQueue`. -/
def bufferUpdate (w : Waiter) (pts : Int) (pl : Payload) : Waiter :=
  let k := ptsKeyVal w.skippedKey pts
  { w with skippedKey := (w.skippedKey + 1) % 2 ^ 64,
           queue := qmapInsert k PtsSkippedQueue.SkippedUpdate w.queue,
           updateQueue := qmapInsert k (pts, pl) w.updateQueue }

/-- `_updatesQueue.insert(ptsKey(SkippedUpdates, pts), updates)`: the batch
analogue of `bufferUpdate`. -/
def bufferUpdates (w : Waiter) (pts : Int) (pl : Payload) : Waiter :=
  let k := ptsKeyVal w.skippedKey pts
  { w with skippedKey := (w.skippedKey + 1) % 2 ^ 64,
           queue := qmapInsert k PtsSkippedQueue.SkippedUpdates w.queue,
           updatesQueue := qmapInsert k (pts, pl) w.updatesQueue }

/-- One iteration of the drain loop of `PtsWaiter::applySkippedUpdates`: for a
`_queue` entry, apply the payload looked up (`QMap::value`) in the map named by
the entry's kind (`applyUpdateNoPtsCheck` / `applyUpdatesNoPtsCheck`). -/
def applyEntry (w : Waiter) (e : Nat × PtsSkippedQueue) : Event :=
  match e.2 with
  | PtsSkippedQueue.SkippedUpdate =>
      Event.applyUpdate (qmapValue e.1 (0, 0) w.updateQueue).1
        (qmapValue e.1 (0, 0) w.updateQueue).2
  | PtsSkippedQueue.SkippedUpdates =>
      Event.applyUpdates (qmapValue e.1 (0, 0) w.updatesQueue).1
        (qmapValue e.1 (0, 0) w.updatesQueue).2

/-- The applier calls made by the drain loop of
`PtsWaiter::applySkippedUpdates`: each `_queue` entry in ascending key
order. -/
def applyQueued (w : Waiter) : List Event :=
  w.queue.map (applyEntry w)

/-- `PtsWaiter::clearSkippedUpdates`: clears the three queue maps and zeroes
the re-entrancy counter.  (It does not touch the waiting flags or the
watermark counters.) -/
def clearSkippedUpdates (w : Waiter) : Waiter :=
  { w with queue := [], updateQueue := [], updatesQueue := [],
           applySkippedLevel := 0 }

/-- `PtsWaiter::applySkippedUpdates`: returns immediately unless the gap-fill
reason is set; otherwise cancels it (re-deriving the timer state), and if the
queue is non-empty drains it in ascending key order inside the re-entrancy
guard (`++_applySkippedLevel` / `--_applySkippedLevel`, then
`clearSkippedUpdates`, which zeroes the level). -/
def applySkippedUpdates (w : Waiter) : Waiter × List Event :=
  if w.waitingForSkipped = false then (w, [])
  else
    let s := setWaitingForSkipped w (-1)
    if s.1.queue = [] then s
    else (clearSkippedUpdates s.1, s.2 ++ applyQueued s.1)

/-- `PtsWaiter::check` (source lines 1133-1150): the gap-check algorithm.
Returns false exactly when the update needs to be saved and applied later;
the state component carries the counter mutations and the event component the
timer armed for a detected mismatch. -/
def check (w : Waiter) (pts count : Int) : Bool × Waiter × List Event :=
  if w.inited = false then (true, init w pts, [])
  else
    let last2 := max w.last pts
    let count2 := w.count + count
    if last2 = count2 then
      (true, { w with last := last2, count := count2, good := last2 }, [])
    else if last2 < count2 then
      let p := setWaitingForSkipped { w with last := last2, count := count2 } 1
      (decide (count = 0), p.1, p.2)
    else
      let p :=
        setWaitingForSkipped { w with last := last2, count := count2 }
          WaitForSkippedTimeout
      (decide (count = 0), p.1, p.2)

/-- `PtsWaiter::updated(channel, pts, count, const MTPUpdate&)`
(source lines 1076-1086). -/
def updatedSingle (w : Waiter) (pts count : Int) (pl : Payload) :
    Bool × Waiter × List Event :=
  if w.requesting = true ∨ w.applySkippedLevel ≠ 0 then (true, w, [])
  else if pts ≤ w.good ∧ 0 < count then (false, w, [])
  else
    let r := check w pts count
    if r.1 then (true, r.2.1, r.2.2)
    else (false, bufferUpdate r.2.1 pts pl, r.2.2)

/-- `PtsWaiter::updated(channel, pts, count, const MTPUpdates&)`
(source lines 1064-1074). -/
def updatedBatch (w : Waiter) (pts count : Int) (pl : Payload) :
    Bool × Waiter × List Event :=
  if w.requesting = true ∨ w.applySkippedLevel ≠ 0 then (true, w, [])
  else if pts ≤ w.good ∧ 0 < count then (false, w, [])
  else
    let r := check w pts count
    if r.1 then (true, r.2.1, r.2.2)
    else (false, bufferUpdates r.2.1 pts pl, r.2.2)

/-- `PtsWaiter::updated(channel, pts, count)` (source lines 1088-1095): the
payload-less overload never buffers anything. -/
def updatedNone (w : Waiter) (pts count : Int) : Bool × Waiter × List Event :=
  if w.requesting = true ∨ w.applySkippedLevel ≠ 0 then (true, w, [])
  else if pts ≤ w.good ∧ 0 < count then (false, w, [])
  else check w pts count

/-- `PtsWaiter::updateAndApply(channel, pts, count, const MTPUpdate&)`
(source lines 1111-1123): the single-update ingest operation. -/
def updateAndApplySingle (w : Waiter) (pts count : Int) (pl : Payload) :
    Bool × Waiter × List Event :=
  let u := updatedSingle w pts count pl
  if u.1 = false then (false, u.2.1, u.2.2)
  else if u.2.1.waitingForSkipped = false ∨ u.2.1.queue = [] then
    (true, u.2.1, u.2.2 ++ [Event.applyUpdate pts pl])
  else
    let w2 := bufferUpdate u.2.1 pts pl
    let a := applySkippedUpdates w2
    (true, a.1, u.2.2 ++ a.2)

/-- `PtsWaiter::updateAndApply(channel, pts, count, const MTPUpdates&)`
(source lines 1097-1109): the batch ingest operation. -/
def updateAndApplyBatch (w : Waiter) (pts count : Int) (pl : Payload) :
    Bool × Waiter × List Event :=
  let u := updatedBatch w pts count pl
  if u.1 = false then (false, u.2.1, u.2.2)
  else if u.2.1.waitingForSkipped = false ∨ u.2.1.queue = [] then
    (true, u.2.1, u.2.2 ++ [Event.applyUpdates pts pl])
  else
    let w2 := bufferUpdates u.2.1 pts pl
    let a := applySkippedUpdates w2
    (true, a.1, u.2.2 ++ a.2)

/-- `PtsWaiter::updateAndApply(channel, pts, count)`
(source lines 1125-1131). -/
def updateAndApplyNone (w : Waiter) (pts count : Int) :
    Bool × Waiter × List Event :=
  let u := updatedNone w pts count
  if u.1 = false then (false, u.2.1, u.2.2)
  else
    let a := applySkippedUpdates u.2.1
    (true, a.1, u.2.2 ++ a.2)

/-- The operations a caller can drive the waiter with: the three ingest
overloads, the timer-or-explicit flush, the reset (`clearSkippedUpdates`),
and the two waiting-reason setters/cancellers. -/
inductive Op where
  | ingestSingle (pts count : Int) (pl : Payload)
  | ingestBatch (pts count : Int) (pl : Payload)
  | ingestNone (pts count : Int)
  | flush
  | reset
  | setSkipped (ms : Int)
  | setPoll (ms : Int)
deriving DecidableEq, Repr

/-- One operation: resulting state and emitted events. -/
def stepT (w : Waiter) : Op → Waiter × List Event
  | Op.ingestSingle pts count pl =>
      ((updateAndApplySingle w pts count pl).2.1,
       (updateAndApplySingle w pts count pl).2.2)
  | Op.ingestBatch pts count pl =>
      ((updateAndApplyBatch w pts count pl).2.1,
       (updateAndApplyBatch w pts count pl).2.2)
  | Op.ingestNone pts count =>
      ((updateAndApplyNone w pts count).2.1,
       (updateAndApplyNone w pts count).2.2)
  | Op.flush => applySkippedUpdates w
  | Op.reset => (clearSkippedUpdates w, [])
  | Op.setSkipped ms => setWaitingForSkipped w ms
  | Op.setPoll ms => setWaitingForShortPoll w ms

/-- Run a sequence of operations, collecting the emitted event trace. -/
def runT : List Op → Waiter → Waiter × List Event
  | [], w => (w, [])
  | o :: os, w =>
    let r := stepT w o
    let rest := runT os r.1
    (rest.1, r.2 ++ rest.2)

/-- Resulting state of a run. -/
def run (ops : List Op) (w : Waiter) : Waiter := (runT ops w).1

/-- A state is reachable when some operation sequence drives the fresh waiter
to it. -/
def Reachable (w : Waiter) : Prop := ∃ ops, run ops initial = w

/-- The ingest/flush fragment of the operation vocabulary. -/
def isIngestFlush : Op → Bool
  | Op.ingestSingle _ _ _ => true
  | Op.ingestBatch _ _ _ => true
  | Op.ingestNone _ _ => true
  | Op.flush => true
  | _ => false

/-- A state is ingest/flush-reachable when a sequence of ingest and flush
operations alone drives the fresh waiter to it. -/
def ReachableIF (w : Waiter) : Prop :=
  ∃ ops, ops.all isIngestFlush = true ∧ run ops initial = w

/-- The apply-events of a trace (timer events dropped). -/
def applies (evs : List Event) : List Event :=
  evs.filter fun e =>
    match e with
    | Event.timer _ => false
    | _ => true

/-- The pts tags of the payloads a trace hands to the applier, in order. -/
def appliedPts (evs : List Event) : List Int :=
  evs.filterMap fun e =>
    match e with
    | Event.timer _ => none
    | Event.applyUpdate p _ => some p
    | Event.applyUpdates p _ => some p

/-- The pts tag extracted from the payload a drain applies for a queue entry
(the pts component of the stored payload pair). -/
def entryPts (w : Waiter) (e : Nat × PtsSkippedQueue) : Int :=
  match e.2 with
  | PtsSkippedQueue.SkippedUpdate => (qmapValue e.1 (0, 0) w.updateQueue).1
  | PtsSkippedQueue.SkippedUpdates => (qmapValue e.1 (0, 0) w.updatesQueue).1

/-- Invariant: the pending queue is non-empty only while the gap-fill waiting
reason is set (so the next flush actually drains it). -/
def QueueWaiting (w : Waiter) : Prop :=
  w.queue = [] ∨ w.waitingForSkipped = true

/-- An association list is sorted by strictly ascending key (the shape `QMap`
maintains and iterates in). -/
def SortedKeys {α : Type} (l : List (Nat × α)) : Prop :=
  List.Pairwise (fun a b => a.1 < b.1) l

/-- A queue entry is well tagged: its key packs the unsigned 32-bit image of
the stored payload's pts into the high 32 bits and a positive insertion-counter
tag (at most the current counter, still below `2^32`) into the low 32 bits,
and the key resolves in the payload map named by the entry's kind. -/
def TagOK (w : Waiter) (e : Nat × PtsSkippedQueue) : Prop :=
  ∃ p s pl, 1 ≤ s ∧ s ≤ w.skippedKey ∧ s < 2 ^ 32 ∧
    e.1 = int32ToUInt32 p * 2 ^ 32 + s ∧
    (e.2 = PtsSkippedQueue.SkippedUpdate →
      qmapLookup e.1 w.updateQueue = some (p, pl)) ∧
    (e.2 = PtsSkippedQueue.SkippedUpdates →
      qmapLookup e.1 w.updatesQueue = some (p, pl))

/-- Structural invariant of the pending queue: keys strictly sorted and every
entry well tagged. -/
def Sinv (w : Waiter) : Prop :=
  SortedKeys w.queue ∧ ∀ e ∈ w.queue, TagOK w e

/-- The pending-queue properties claimed of a state: keys strictly ascending
(hence unique); every entry's key packs (unsigned pts, insertion tag) with the
tag recoverable as `key % 2^32` and the unsigned pts as `key / 2^32`, and
resolves to its payload; among entries whose keys carry the same pts image,
key order (= drain order) coincides with insertion-tag order (FIFO on pts
ties); and whenever the gap-fill reason is set, a flush hands the applier
exactly the queued payloads in queue order. -/
def C6Concl (w : Waiter) : Prop :=
  SortedKeys w.queue ∧
  (w.queue.map Prod.fst).Nodup ∧
  (∀ e ∈ w.queue, ∃ p s pl, 1 ≤ s ∧ s ≤ w.skippedKey ∧ s < 2 ^ 32 ∧
    e.1 = int32ToUInt32 p * 2 ^ 32 + s ∧
    e.1 / 2 ^ 32 = int32ToUInt32 p ∧ e.1 % 2 ^ 32 = s ∧
    (e.2 = PtsSkippedQueue.SkippedUpdate →
      qmapLookup e.1 w.updateQueue = some (p, pl)) ∧
    (e.2 = PtsSkippedQueue.SkippedUpdates →
      qmapLookup e.1 w.updatesQueue = some (p, pl))) ∧
  (∀ e1 ∈ w.queue, ∀ e2 ∈ w.queue,
    e1.1 / 2 ^ 32 = e2.1 / 2 ^ 32 →
    (e1.1 % 2 ^ 32 < e2.1 % 2 ^ 32 ↔ e1.1 < e2.1)) ∧
  (w.waitingForSkipped = true →
    applies (applySkippedUpdates w).2 = applyQueued w)

/-! Concrete states and operation sequences used by individual witnesses and
counterexamples. -/

/-- An initialized baseline state (confirmed = lastSeen = countAccumulated =
10), as produced by a first update with pts 10 and count 10. -/
def baseState : Waiter :=
  { initial with good := 10, last := 10, count := 10, inited := true }

/-- A state holding one buffered entry with both waiting reasons set. -/
def c2State : Waiter :=
  { initial with waitingForSkipped := true, waitingForShortPoll := true,
                 queue := [(5, PtsSkippedQueue.SkippedUpdate)],
                 updateQueue := [(5, (3, 9))] }

/-- Baseline, a buffered gap entry, then the poll waiting reason set by the
caller: a reachable state in which both waiting reasons hold and the pending
queue is non-empty. -/
def c2Ops : List Op :=
  [Op.ingestSingle 10 10 7, Op.ingestSingle 20 4 8, Op.setPoll 100]

/-- Baseline at 10; a count-0 update at pts 100 applied inline during the
mismatch; a buffered update at pts 11; an update at pts 12 that closes the
checksum and triggers the drain. -/
def c3Ops : List Op :=
  [Op.ingestSingle 10 10 0, Op.ingestSingle 100 0 1,
   Op.ingestSingle 11 1 2, Op.ingestSingle 12 89 3]

/-- An initialized, non-re-entrant state with an external resync request in
flight. -/
def c4State : Waiter := { baseState with requesting := true }

/-- An initialized state inside a drain (`_applySkippedLevel` is 1). -/
def c7State : Waiter := { baseState with applySkippedLevel := 1 }

/-- A state with buffered data and both waiting reasons set, for exercising
`clearSkippedUpdates`. -/
def c8State : Waiter :=
  { initial with queue := [(7, PtsSkippedQueue.SkippedUpdates)],
                 updatesQueue := [(7, (4, 2))],
                 applySkippedLevel := 3,
                 waitingForSkipped := true, waitingForShortPoll := true }

/-- Baseline then one buffered gap entry: a reachable state with a non-empty
pending queue. -/
def c1Ops : List Op := [Op.ingestSingle 10 10 7, Op.ingestSingle 20 4 8]

/-! Theorems. -/

/-- C8 counterexample: `clearSkippedUpdates` (the spec's `resetGapTracking`)
does not clear the two waiting flags.  On a state with both flags set it
empties the queue and zeroes the re-entrancy counter but leaves
`awaitingGapFill` and `awaitingPoll` set, contradicting the claim that both
flags are cleared. -/
theorem c8_counterexample :
    (clearSkippedUpdates c8State).queue = [] ∧
    (clearSkippedUpdates c8State).applySkippedLevel = 0 ∧
    (clearSkippedUpdates c8State).waitingForSkipped = true ∧
    (clearSkippedUpdates c8State).waitingForShortPoll = true ∧
    ¬((clearSkippedUpdates c8State).waitingForSkipped = false ∧
      (clearSkippedUpdates c8State).waitingForShortPoll = false) := by
  decide

/-- C8 amended: for every state, `clearSkippedUpdates` empties the pending
queue (all three maps) and zeroes the re-entrancy counter, and leaves both
waiting flags, `confirmed`, `lastSeen`, `countAccumulated`, the insertion
counter, the initialization flag and the resync flag unchanged. -/
theorem c8_amended_reset_frame (w : Waiter) :
    (clearSkippedUpdates w).queue = [] ∧
    (clearSkippedUpdates w).updateQueue = [] ∧
    (clearSkippedUpdates w).updatesQueue = [] ∧
    (clearSkippedUpdates w).applySkippedLevel = 0 ∧
    (clearSkippedUpdates w).waitingForSkipped = w.waitingForSkipped ∧
    (clearSkippedUpdates w).waitingForShortPoll = w.waitingForShortPoll ∧
    (clearSkippedUpdates w).good = w.good ∧
    (clearSkippedUpdates w).last = w.last ∧
    (clearSkippedUpdates w).count = w.count ∧
    (clearSkippedUpdates w).skippedKey = w.skippedKey ∧
    (clearSkippedUpdates w).inited = w.inited ∧
    (clearSkippedUpdates w).requesting = w.requesting :=
  ⟨rfl, rfl, rfl, rfl, rfl, rfl, rfl, rfl, rfl, rfl, rfl, rfl⟩

/-- C4 counterexample: on an initialized state that is not inside a re-entrant
flush (`applySkippedLevel = 0`) but has an external resync request in flight
(`_requesting`), a stale update with `pts <= confirmed` and `count > 0` is
not discarded: the ingest reports Applied (returns true) and the applier is
invoked for the stale payload. -/
theorem c4_counterexample :
    c4State.inited = true ∧
    c4State.applySkippedLevel = 0 ∧
    (5 : Int) ≤ c4State.good ∧ (0 : Int) < 3 ∧
    (updatedSingle c4State 5 3 9).1 = true ∧
    (updateAndApplySingle c4State 5 3 9).1 = true ∧
    applies (updateAndApplySingle c4State 5 3 9).2.2 = [Event.applyUpdate 5 9] := by
  decide

/-- C4 amended: for every initialized state that is not inside a re-entrant
flush and has no external resync request in flight, an incoming update with
`pts <= confirmed` and `count > 0` is discarded as a successful no-op: all
three `updated` overloads and all three `updateAndApply` overloads report
duplicate (false), emit no applier call and no timer event, and leave the
state (watermarks, accumulator and pending queue included) unchanged. -/
theorem c4_amended_duplicate_noop (w : Waiter) (pts count : Int) (pl : Payload)
    (h0 : w.inited = true) (h1 : w.requesting = false)
    (h2 : w.applySkippedLevel = 0) (h3 : pts ≤ w.good) (h4 : 0 < count) :
    updatedSingle w pts count pl = (false, w, []) ∧
    updatedBatch w pts count pl = (false, w, []) ∧
    updatedNone w pts count = (false, w, []) ∧
    updateAndApplySingle w pts count pl = (false, w, []) ∧
    updateAndApplyBatch w pts count pl = (false, w, []) ∧
    updateAndApplyNone w pts count = (false, w, []) := by
  have hg : ¬(w.requesting = true ∨ w.applySkippedLevel ≠ 0) := by
    simp [h1, h2]
  have hd : pts ≤ w.good ∧ 0 < count := ⟨h3, h4⟩
  have hus : updatedSingle w pts count pl = (false, w, []) := by
    unfold updatedSingle
    rw [if_neg hg, if_pos hd]
  have hub : updatedBatch w pts count pl = (false, w, []) := by
    unfold updatedBatch
    rw [if_neg hg, if_pos hd]
  have hun : updatedNone w pts count = (false, w, []) := by
    unfold updatedNone
    rw [if_neg hg, if_pos hd]
  refine ⟨hus, hub, hun, ?_, ?_, ?_⟩
  · unfold updateAndApplySingle
    rw [hus]
    rfl
  · unfold updateAndApplyBatch
    rw [hub]
    rfl
  · unfold updateAndApplyNone
    rw [hun]
    rfl


/-- C4 witness: the amended duplicate rule at the baseline state, stale update
pts 5, count 3. -/
theorem c4_amended_witness :
    baseState.inited = true ∧ (5 : Int) ≤ baseState.good ∧
    updateAndApplySingle baseState 5 3 9 = (false, baseState, []) :=
  ⟨by decide, by decide,
   (c4_amended_duplicate_noop baseState 5 3 9 rfl rfl rfl (by decide)
     (by decide)).2.2.2.1⟩

/-- C10 counterexample: on the fresh, uninitialized state the first ingested
update with pts 0 and count 1 is not reported in-sequence: the duplicate
guard (which runs before the initialization check, against the default
watermark 0) discards it, the applier is never called, and the state remains
uninitialized. -/
theorem c10_counterexample :
    initial.inited = false ∧
    (updateAndApplySingle initial 0 1 5).1 = false ∧
    (updateAndApplySingle initial 0 1 5).2.1.inited = false ∧
    applies (updateAndApplySingle initial 0 1 5).2.2 = [] := by
  decide

/-- C10 amended: on an uninitialized state (no resync in flight, not inside a
flush, gap-fill reason clear, as on the fresh state), the first ingested
update is reported in-sequence, applied immediately, and seeds
`confirmed = lastSeen = countAccumulated = pts` and marks the state
initialized without validating the values — provided it survives the
duplicate guard, i.e. unless `pts <= confirmed`'s default and `count > 0`,
in which case it is discarded (see the counterexample). -/
theorem c10_amended_first_update (w : Waiter) (pts count : Int) (pl : Payload)
    (h0 : w.inited = false) (h1 : w.requesting = false)
    (h2 : w.applySkippedLevel = 0) (h3 : w.waitingForSkipped = false)
    (h4 : w.good < pts ∨ count ≤ 0) :
    updateAndApplySingle w pts count pl =
      (true, { w with good := pts, last := pts, count := pts, inited := true },
       [Event.applyUpdate pts pl]) := by
  have hg : ¬(w.requesting = true ∨ w.applySkippedLevel ≠ 0) := by
    simp [h1, h2]
  have hd : ¬(pts ≤ w.good ∧ 0 < count) := by
    rcases h4 with h | h
    · intro hc
      exact absurd hc.1 (not_le.mpr h)
    · intro hc
      exact absurd hc.2 (not_lt.mpr h)
  have hc : check w pts count = (true, init w pts, []) := by
    unfold check
    rw [if_pos h0]
  have hu : updatedSingle w pts count pl = (true, init w pts, []) := by
    unfold updatedSingle
    rw [if_neg hg, if_neg hd, hc]
    rfl
  unfold updateAndApplySingle
  rw [hu]
  simp [init, h3]

/-- C10 witness: the first update (pts 100, count 5) on the fresh state is
applied immediately and seeds the baseline. -/
theorem c10_amended_witness :
    initial.inited = false ∧ initial.good < 100 ∧
    updateAndApplySingle initial 100 5 7 =
      (true,
       { initial with good := 100, last := 100, count := 100, inited := true },
       [Event.applyUpdate 100 7]) :=
  ⟨rfl, by decide,
   c10_amended_first_update initial 100 5 7 rfl rfl rfl rfl (Or.inl (by decide))⟩

/-! Characterizations of the gap check and the waiting setters, and frame
lemmas used by the invariant proofs. -/

/-- On an uninitialized state the gap check establishes the baseline. -/
theorem check_uninit (w : Waiter) (pts count : Int) (h : w.inited = false) :
    check w pts count = (true, init w pts, []) := by
  unfold check
  rw [if_pos h]

/-- The gap check when the checksum closes exactly. -/
theorem check_eq (w : Waiter) (pts count : Int) (h : w.inited = true)
    (heq : max w.last pts = w.count + count) :
    check w pts count =
      (true,
       { w with
           last := max w.last pts,
           count := w.count + count,
           good := max w.last pts },
       []) := by
  unfold check
  rw [if_neg (by simp [h]), if_pos heq]

/-- The gap check when the accumulated count overshoots the high-water mark:
short re-check timer. -/
theorem check_lt (w : Waiter) (pts count : Int) (h : w.inited = true)
    (hlt : max w.last pts < w.count + count) :
    check w pts count =
      (decide (count = 0),
       { w with
           last := max w.last pts,
           count := w.count + count,
           waitingForSkipped := true },
       [Event.timer 1]) := by
  unfold check
  rw [if_neg (by simp [h]), if_neg (by omega), if_pos hlt]
  simp [setWaitingForSkipped]

/-- The gap check when the high-water mark is ahead of the accumulated count:
standard gap timeout. -/
theorem check_gt (w : Waiter) (pts count : Int) (h : w.inited = true)
    (hgt : w.count + count < max w.last pts) :
    check w pts count =
      (decide (count = 0),
       { w with
           last := max w.last pts,
           count := w.count + count,
           waitingForSkipped := true },
       [Event.timer WaitForSkippedTimeout]) := by
  unfold check
  rw [if_neg (by simp [h]), if_neg (by omega), if_neg (by omega)]
  simp [setWaitingForSkipped, WaitForSkippedTimeout]

/-- Arming the gap-fill timer (non-negative delay). -/
theorem setWaitingForSkipped_arm (w : Waiter) (ms : Int) (h : 0 ≤ ms) :
    setWaitingForSkipped w ms =
      ({ w with waitingForSkipped := true }, [Event.timer ms]) := by
  unfold setWaitingForSkipped
  rw [if_pos h]

/-- Cancelling the gap-fill reason (the `-1` sentinel path). -/
theorem setWaitingForSkipped_cancel (w : Waiter) :
    setWaitingForSkipped w (-1) =
      ({ w with waitingForSkipped := false },
       checkForWaiting { w with waitingForSkipped := false }) := by
  unfold setWaitingForSkipped
  rw [if_neg (by norm_num)]

/-- Arming the short-poll timer (non-negative delay). -/
theorem setWaitingForShortPoll_arm (w : Waiter) (ms : Int) (h : 0 ≤ ms) :
    setWaitingForShortPoll w ms =
      ({ w with waitingForShortPoll := true }, [Event.timer ms]) := by
  unfold setWaitingForShortPoll
  rw [if_pos h]

/-- Cancelling the short-poll reason. -/
theorem setWaitingForShortPoll_cancel (w : Waiter) (ms : Int) (h : ms < 0) :
    setWaitingForShortPoll w ms =
      ({ w with waitingForShortPoll := false },
       checkForWaiting { w with waitingForShortPoll := false }) := by
  unfold setWaitingForShortPoll
  rw [if_neg (by omega)]

/-- The three possible shapes of a flush: no-op while the gap-fill reason is
clear; reason cancelled on an empty queue; full drain. -/
theorem applySkippedUpdates_cases (w : Waiter) :
    (w.waitingForSkipped = false ∧ applySkippedUpdates w = (w, [])) ∨
    (w.waitingForSkipped = true ∧ w.queue = [] ∧
      applySkippedUpdates w =
        ({ w with waitingForSkipped := false },
         checkForWaiting { w with waitingForSkipped := false })) ∨
    (w.waitingForSkipped = true ∧ w.queue ≠ [] ∧
      applySkippedUpdates w =
        (clearSkippedUpdates { w with waitingForSkipped := false },
         checkForWaiting { w with waitingForSkipped := false } ++
           applyQueued w)) := by
  by_cases hw : w.waitingForSkipped = false
  · left
    refine ⟨hw, ?_⟩
    unfold applySkippedUpdates
    rw [if_pos hw]
  · have hw' : w.waitingForSkipped = true := by simpa using hw
    by_cases hq : w.queue = []
    · right; left
      refine ⟨hw', hq, ?_⟩
      unfold applySkippedUpdates
      rw [if_neg hw, setWaitingForSkipped_cancel]
      simp [hq]
    · right; right
      refine ⟨hw', hq, ?_⟩
      unfold applySkippedUpdates
      rw [if_neg hw, setWaitingForSkipped_cancel]
      simp [hq]
      rfl

/-- The gap check never touches the queue maps, the insertion counter, the
resync flag, the re-entrancy level or the poll reason. -/
theorem check_frame (w : Waiter) (pts count : Int) :
    (check w pts count).2.1.queue = w.queue ∧
    (check w pts count).2.1.updateQueue = w.updateQueue ∧
    (check w pts count).2.1.updatesQueue = w.updatesQueue ∧
    (check w pts count).2.1.skippedKey = w.skippedKey ∧
    (check w pts count).2.1.requesting = w.requesting ∧
    (check w pts count).2.1.applySkippedLevel = w.applySkippedLevel ∧
    (check w pts count).2.1.waitingForShortPoll = w.waitingForShortPoll := by
  by_cases hi : w.inited = false
  · rw [check_uninit w pts count hi]
    exact ⟨rfl, rfl, rfl, rfl, rfl, rfl, rfl⟩
  · have hi' : w.inited = true := by simpa using hi
    rcases lt_trichotomy (max w.last pts) (w.count + count) with hlt | heq | hgt
    · rw [check_lt w pts count hi' hlt]
      exact ⟨rfl, rfl, rfl, rfl, rfl, rfl, rfl⟩
    · rw [check_eq w pts count hi' heq]
      exact ⟨rfl, rfl, rfl, rfl, rfl, rfl, rfl⟩
    · rw [check_gt w pts count hi' hgt]
      exact ⟨rfl, rfl, rfl, rfl, rfl, rfl, rfl⟩

/-- The gap check preserves the watermark invariant. -/
theorem check_goodle (w : Waiter) (pts count : Int) (h : w.good ≤ w.last) :
    (check w pts count).2.1.good ≤ (check w pts count).2.1.last := by
  by_cases hi : w.inited = false
  · rw [check_uninit w pts count hi]
    exact le_refl _
  · have hi' : w.inited = true := by simpa using hi
    rcases lt_trichotomy (max w.last pts) (w.count + count) with hlt | heq | hgt
    · rw [check_lt w pts count hi' hlt]
      exact le_trans h (le_max_left _ _)
    · rw [check_eq w pts count hi' heq]
    · rw [check_gt w pts count hi' hgt]
      exact le_trans h (le_max_left _ _)

/-- The gap check never clears the gap-fill waiting reason. -/
theorem check_waiting_mono (w : Waiter) (pts count : Int)
    (h : w.waitingForSkipped = true) :
    (check w pts count).2.1.waitingForSkipped = true := by
  by_cases hi : w.inited = false
  · rw [check_uninit w pts count hi]
    exact h
  · have hi' : w.inited = true := by simpa using hi
    rcases lt_trichotomy (max w.last pts) (w.count + count) with hlt | heq | hgt
    · rw [check_lt w pts count hi' hlt]
    · rw [check_eq w pts count hi' heq]
      exact h
    · rw [check_gt w pts count hi' hgt]

/-- A gap verdict (check returned false) always sets the gap-fill reason. -/
theorem check_false_waiting (w : Waiter) (pts count : Int)
    (h : (check w pts count).1 = false) :
    (check w pts count).2.1.waitingForSkipped = true := by
  by_cases hi : w.inited = false
  · rw [check_uninit w pts count hi] at h
    simp at h
  · have hi' : w.inited = true := by simpa using hi
    rcases lt_trichotomy (max w.last pts) (w.count + count) with hlt | heq | hgt
    · rw [check_lt w pts count hi' hlt]
    · rw [check_eq w pts count hi' heq] at h
      simp at h
    · rw [check_gt w pts count hi' hgt]

/-- Buffering a single update does not touch the watermark counters. -/
theorem bufferUpdate_good (w : Waiter) (pts : Int) (pl : Payload) :
    (bufferUpdate w pts pl).good = w.good := rfl

/-- Buffering a single update does not touch the high-water mark. -/
theorem bufferUpdate_last (w : Waiter) (pts : Int) (pl : Payload) :
    (bufferUpdate w pts pl).last = w.last := rfl

/-- Buffering a single update does not touch the gap-fill flag. -/
theorem bufferUpdate_waiting (w : Waiter) (pts : Int) (pl : Payload) :
    (bufferUpdate w pts pl).waitingForSkipped = w.waitingForSkipped := rfl

/-- Buffering a batch does not touch the watermark counters. -/
theorem bufferUpdates_good (w : Waiter) (pts : Int) (pl : Payload) :
    (bufferUpdates w pts pl).good = w.good := rfl

/-- Buffering a batch does not touch the high-water mark. -/
theorem bufferUpdates_last (w : Waiter) (pts : Int) (pl : Payload) :
    (bufferUpdates w pts pl).last = w.last := rfl

/-- Buffering a batch does not touch the gap-fill flag. -/
theorem bufferUpdates_waiting (w : Waiter) (pts : Int) (pl : Payload) :
    (bufferUpdates w pts pl).waitingForSkipped = w.waitingForSkipped := rfl

/-- A flush never touches the watermark counters, the insertion counter, the
initialization and resync flags, or the poll reason. -/
theorem applySkippedUpdates_frame (w : Waiter) :
    (applySkippedUpdates w).1.good = w.good ∧
    (applySkippedUpdates w).1.last = w.last ∧
    (applySkippedUpdates w).1.count = w.count ∧
    (applySkippedUpdates w).1.skippedKey = w.skippedKey ∧
    (applySkippedUpdates w).1.inited = w.inited ∧
    (applySkippedUpdates w).1.requesting = w.requesting ∧
    (applySkippedUpdates w).1.waitingForShortPoll = w.waitingForShortPoll := by
  rcases applySkippedUpdates_cases w with ⟨_, hc⟩ | ⟨_, _, hc⟩ | ⟨_, _, hc⟩ <;>
    rw [hc] <;> exact ⟨rfl, rfl, rfl, rfl, rfl, rfl, rfl⟩

/-! The watermark invariant `confirmed <= lastSeen` through every operation. -/

/-- `updated` (single) preserves the watermark invariant. -/
theorem updatedSingle_goodle (w : Waiter) (pts count : Int) (pl : Payload)
    (h : w.good ≤ w.last) :
    (updatedSingle w pts count pl).2.1.good ≤
      (updatedSingle w pts count pl).2.1.last := by
  simp only [updatedSingle]
  split
  · exact h
  · split
    · exact h
    · split
      · exact check_goodle w pts count h
      · have := check_goodle w pts count h
        simpa [bufferUpdate_good, bufferUpdate_last] using this

/-- `updated` (batch) preserves the watermark invariant. -/
theorem updatedBatch_goodle (w : Waiter) (pts count : Int) (pl : Payload)
    (h : w.good ≤ w.last) :
    (updatedBatch w pts count pl).2.1.good ≤
      (updatedBatch w pts count pl).2.1.last := by
  simp only [updatedBatch]
  split
  · exact h
  · split
    · exact h
    · split
      · exact check_goodle w pts count h
      · have := check_goodle w pts count h
        simpa [bufferUpdates_good, bufferUpdates_last] using this

/-- `updated` (payload-less) preserves the watermark invariant. -/
theorem updatedNone_goodle (w : Waiter) (pts count : Int)
    (h : w.good ≤ w.last) :
    (updatedNone w pts count).2.1.good ≤ (updatedNone w pts count).2.1.last := by
  simp only [updatedNone]
  split
  · exact h
  · split
    · exact h
    · exact check_goodle w pts count h

/-- A flush preserves the watermark invariant. -/
theorem applySkippedUpdates_goodle (w : Waiter) (h : w.good ≤ w.last) :
    (applySkippedUpdates w).1.good ≤ (applySkippedUpdates w).1.last := by
  rw [(applySkippedUpdates_frame w).1, (applySkippedUpdates_frame w).2.1]
  exact h

/-- The single-update ingest preserves the watermark invariant. -/
theorem updateAndApplySingle_goodle (w : Waiter) (pts count : Int)
    (pl : Payload) (h : w.good ≤ w.last) :
    (updateAndApplySingle w pts count pl).2.1.good ≤
      (updateAndApplySingle w pts count pl).2.1.last := by
  have h1 := updatedSingle_goodle w pts count pl h
  simp only [updateAndApplySingle]
  split
  · exact h1
  · split
    · exact h1
    · exact applySkippedUpdates_goodle _
        (by simpa [bufferUpdate_good, bufferUpdate_last] using h1)

/-- The batch ingest preserves the watermark invariant. -/
theorem updateAndApplyBatch_goodle (w : Waiter) (pts count : Int)
    (pl : Payload) (h : w.good ≤ w.last) :
    (updateAndApplyBatch w pts count pl).2.1.good ≤
      (updateAndApplyBatch w pts count pl).2.1.last := by
  have h1 := updatedBatch_goodle w pts count pl h
  simp only [updateAndApplyBatch]
  split
  · exact h1
  · split
    · exact h1
    · exact applySkippedUpdates_goodle _
        (by simpa [bufferUpdates_good, bufferUpdates_last] using h1)

/-- The payload-less ingest preserves the watermark invariant. -/
theorem updateAndApplyNone_goodle (w : Waiter) (pts count : Int)
    (h : w.good ≤ w.last) :
    (updateAndApplyNone w pts count).2.1.good ≤
      (updateAndApplyNone w pts count).2.1.last := by
  have h1 := updatedNone_goodle w pts count h
  simp only [updateAndApplyNone]
  split
  · exact h1
  · exact applySkippedUpdates_goodle _ h1

/-- Every operation preserves the watermark invariant. -/
theorem stepT_goodle (w : Waiter) (op : Op) (h : w.good ≤ w.last) :
    (stepT w op).1.good ≤ (stepT w op).1.last := by
  cases op with
  | ingestSingle pts count pl => exact updateAndApplySingle_goodle w pts count pl h
  | ingestBatch pts count pl => exact updateAndApplyBatch_goodle w pts count pl h
  | ingestNone pts count => exact updateAndApplyNone_goodle w pts count h
  | flush => exact applySkippedUpdates_goodle w h
  | reset => exact h
  | setSkipped ms =>
      show (setWaitingForSkipped w ms).1.good ≤ (setWaitingForSkipped w ms).1.last
      unfold setWaitingForSkipped
      split
      · exact h
      · exact h
  | setPoll ms =>
      show (setWaitingForShortPoll w ms).1.good ≤ (setWaitingForShortPoll w ms).1.last
      unfold setWaitingForShortPoll
      split
      · exact h
      · exact h

/-- A run of operations preserves the watermark invariant. -/
theorem run_goodle (ops : List Op) : ∀ w : Waiter, w.good ≤ w.last →
    (run ops w).good ≤ (run ops w).last := by
  induction ops with
  | nil => intro w h; exact h
  | cons o os ih =>
    intro w h
    show (run os (stepT w o).1).good ≤ (run os (stepT w o).1).last
    exact ih _ (stepT_goodle w o h)

/-! The queue/waiting coupling through ingest and flush operations. -/

/-- `qmapInsert` never produces an empty map. -/
theorem qmapInsert_ne_nil (k : Nat) (v : α) (l : List (Nat × α)) :
    qmapInsert k v l ≠ [] := by
  cases l with
  | nil => simp [qmapInsert]
  | cons hd tl =>
    unfold qmapInsert
    split
    · simp
    · split <;> simp

/-- `updated` (single) preserves the queue/waiting coupling. -/
theorem updatedSingle_qw (w : Waiter) (pts count : Int) (pl : Payload)
    (h : QueueWaiting w) :
    QueueWaiting (updatedSingle w pts count pl).2.1 := by
  simp only [updatedSingle]
  split
  · exact h
  · split
    · exact h
    · split
      · rcases h with hq | hw
        · exact Or.inl ((check_frame w pts count).1.trans hq)
        · exact Or.inr (check_waiting_mono w pts count hw)
      · next hfalse =>
        refine Or.inr ?_
        rw [bufferUpdate_waiting]
        exact check_false_waiting w pts count (by simpa using hfalse)

/-- `updated` (batch) preserves the queue/waiting coupling. -/
theorem updatedBatch_qw (w : Waiter) (pts count : Int) (pl : Payload)
    (h : QueueWaiting w) :
    QueueWaiting (updatedBatch w pts count pl).2.1 := by
  simp only [updatedBatch]
  split
  · exact h
  · split
    · exact h
    · split
      · rcases h with hq | hw
        · exact Or.inl ((check_frame w pts count).1.trans hq)
        · exact Or.inr (check_waiting_mono w pts count hw)
      · next hfalse =>
        refine Or.inr ?_
        rw [bufferUpdates_waiting]
        exact check_false_waiting w pts count (by simpa using hfalse)

/-- `updated` (payload-less) preserves the queue/waiting coupling. -/
theorem updatedNone_qw (w : Waiter) (pts count : Int)
    (h : QueueWaiting w) :
    QueueWaiting (updatedNone w pts count).2.1 := by
  simp only [updatedNone]
  split
  · exact h
  · split
    · exact h
    · rcases h with hq | hw
      · exact Or.inl ((check_frame w pts count).1.trans hq)
      · exact Or.inr (check_waiting_mono w pts count hw)

/-- A flush preserves the queue/waiting coupling. -/
theorem applySkippedUpdates_qw (w : Waiter) (h : QueueWaiting w) :
    QueueWaiting (applySkippedUpdates w).1 := by
  rcases applySkippedUpdates_cases w with ⟨_, hc⟩ | ⟨hw, hq, hc⟩ | ⟨hw, hq, hc⟩
  · rw [hc]
    exact h
  · rw [hc]
    exact Or.inl hq
  · rw [hc]
    exact Or.inl rfl

/-- The single-update ingest preserves the queue/waiting coupling. -/
theorem updateAndApplySingle_qw (w : Waiter) (pts count : Int) (pl : Payload)
    (h : QueueWaiting w) :
    QueueWaiting (updateAndApplySingle w pts count pl).2.1 := by
  have h1 := updatedSingle_qw w pts count pl h
  simp only [updateAndApplySingle]
  split
  · exact h1
  · split
    · exact h1
    · rename_i hu hcond
      refine applySkippedUpdates_qw _ (Or.inr ?_)
      rw [bufferUpdate_waiting]
      rcases h1 with hq | hw
      · exact absurd (Or.inr hq) hcond
      · exact hw

/-- The batch ingest preserves the queue/waiting coupling. -/
theorem updateAndApplyBatch_qw (w : Waiter) (pts count : Int) (pl : Payload)
    (h : QueueWaiting w) :
    QueueWaiting (updateAndApplyBatch w pts count pl).2.1 := by
  have h1 := updatedBatch_qw w pts count pl h
  simp only [updateAndApplyBatch]
  split
  · exact h1
  · split
    · exact h1
    · rename_i hu hcond
      refine applySkippedUpdates_qw _ (Or.inr ?_)
      rw [bufferUpdates_waiting]
      rcases h1 with hq | hw
      · exact absurd (Or.inr hq) hcond
      · exact hw

/-- The payload-less ingest preserves the queue/waiting coupling. -/
theorem updateAndApplyNone_qw (w : Waiter) (pts count : Int)
    (h : QueueWaiting w) :
    QueueWaiting (updateAndApplyNone w pts count).2.1 := by
  have h1 := updatedNone_qw w pts count h
  simp only [updateAndApplyNone]
  split
  · exact h1
  · exact applySkippedUpdates_qw _ h1

/-- Every ingest or flush operation preserves the queue/waiting coupling. -/
theorem stepT_qw (w : Waiter) (op : Op) (hop : isIngestFlush op = true)
    (h : QueueWaiting w) : QueueWaiting (stepT w op).1 := by
  cases op with
  | ingestSingle pts count pl => exact updateAndApplySingle_qw w pts count pl h
  | ingestBatch pts count pl => exact updateAndApplyBatch_qw w pts count pl h
  | ingestNone pts count => exact updateAndApplyNone_qw w pts count h
  | flush => exact applySkippedUpdates_qw w h
  | reset => cases hop
  | setSkipped ms => cases hop
  | setPoll ms => cases hop

/-- A run of ingest/flush operations preserves the queue/waiting coupling. -/
theorem run_qw (ops : List Op) : ∀ w : Waiter,
    ops.all isIngestFlush = true → QueueWaiting w →
    QueueWaiting (run ops w) := by
  induction ops with
  | nil => intro w _ h; exact h
  | cons o os ih =>
    intro w hall h
    rw [List.all_cons, Bool.and_eq_true] at hall
    show QueueWaiting (run os (stepT w o).1)
    exact ih _ hall.2 (stepT_qw w o hall.1 h)

/-! Ordered-map lemmas and key arithmetic. -/

/-- Every entry of an insert result is the inserted pair or an original
entry. -/
theorem mem_qmapInsert {α : Type} {e : Nat × α} (k : Nat) (v : α) :
    ∀ l : List (Nat × α), e ∈ qmapInsert k v l → e = (k, v) ∨ e ∈ l := by
  intro l
  induction l with
  | nil =>
    intro h
    simp [qmapInsert] at h
    exact Or.inl h
  | cons hd tl ih =>
    intro h
    unfold qmapInsert at h
    split at h
    · rw [List.mem_cons] at h
      rcases h with h | h
      · exact Or.inl h
      · exact Or.inr h
    · split at h
      · rw [List.mem_cons] at h
        rcases h with h | h
        · exact Or.inl h
        · exact Or.inr (List.mem_cons_of_mem hd h)
      · rw [List.mem_cons] at h
        rcases h with h | h
        · exact Or.inr (h ▸ List.mem_cons_self hd tl)
        · rcases ih h with h' | h'
          · exact Or.inl h'
          · exact Or.inr (List.mem_cons_of_mem hd h')

/-- Insert-or-replace keeps the keys strictly sorted. -/
theorem qmapInsert_sorted {α : Type} (k : Nat) (v : α) :
    ∀ l : List (Nat × α), SortedKeys l → SortedKeys (qmapInsert k v l) := by
  intro l
  induction l with
  | nil =>
    intro _
    simp [qmapInsert, SortedKeys]
  | cons hd tl ih =>
    intro hs
    unfold SortedKeys at hs
    rw [List.pairwise_cons] at hs
    unfold qmapInsert
    split
    · rename_i hlt
      unfold SortedKeys
      rw [List.pairwise_cons]
      constructor
      · intro b hb
        rw [List.mem_cons] at hb
        rcases hb with rfl | hb'
        · exact hlt
        · exact lt_trans hlt (hs.1 b hb')
      · exact List.Pairwise.cons hs.1 hs.2
    · split
      · rename_i hne heq
        unfold SortedKeys
        rw [List.pairwise_cons]
        exact ⟨fun b hb => heq ▸ hs.1 b hb, hs.2⟩
      · rename_i hne1 hne2
        have hgt : hd.1 < k := by omega
        unfold SortedKeys
        rw [List.pairwise_cons]
        constructor
        · intro b hb
          rcases mem_qmapInsert k v tl hb with rfl | hb'
          · exact hgt
          · exact hs.1 b hb'
        · exact ih hs.2

/-- Looking up the key just inserted yields the inserted value. -/
theorem qmapLookup_insert_self {α : Type} (k : Nat) (v : α) :
    ∀ l : List (Nat × α), qmapLookup k (qmapInsert k v l) = some v := by
  intro l
  induction l with
  | nil => simp [qmapInsert, qmapLookup]
  | cons hd tl ih =>
    unfold qmapInsert
    split
    · simp [qmapLookup]
    · split
      · simp [qmapLookup]
      · rename_i hne1 hne2
        have hq : hd.1 ≠ k := by omega
        simp only [qmapLookup]
        rw [if_neg hq]
        exact ih

/-- Inserting one key leaves lookups of other keys unchanged. -/
theorem qmapLookup_insert_ne {α : Type} {k' k : Nat} (hne : k' ≠ k) (v : α) :
    ∀ l : List (Nat × α), qmapLookup k' (qmapInsert k v l) = qmapLookup k' l := by
  intro l
  induction l with
  | nil =>
    simp only [qmapInsert, qmapLookup]
    rw [if_neg (fun h => hne h.symm)]
  | cons hd tl ih =>
    unfold qmapInsert
    split
    · simp only [qmapLookup]
      rw [if_neg (fun h => hne h.symm)]
    · split
      · rename_i hne0 heq
        simp only [qmapLookup]
        rw [if_neg (fun h => hne h.symm), if_neg (fun h => hne ((heq.trans h).symm))]
      · simp only [qmapLookup]
        by_cases hhd : hd.1 = k'
        · rw [if_pos hhd, if_pos hhd]
        · rw [if_neg hhd, if_neg hhd]
          exact ih

/-- A successful lookup determines `QMap::value`. -/
theorem qmapValue_of_lookup {α : Type} {k : Nat} {v : α} {l : List (Nat × α)}
    (d : α) (h : qmapLookup k l = some v) : qmapValue k d l = v := by
  unfold qmapValue
  rw [h]
  rfl

/-- The packed key splits into its two fields while the insertion counter is
below `2^32`: the or is a plain sum. -/
theorem ptsKeyVal_eq (sk : Nat) (pts : Int) (h : sk + 1 < 2 ^ 32) :
    ptsKeyVal sk pts = int32ToUInt32 pts * 2 ^ 32 + (sk + 1) := by
  unfold ptsKeyVal
  have hm : (sk + 1) % 2 ^ 64 = sk + 1 :=
    Nat.mod_eq_of_lt (lt_trans h (by norm_num))
  rw [hm, Nat.shiftLeft_eq]
  have := Nat.mul_add_lt_is_or h (int32ToUInt32 pts)
  rw [Nat.mul_comm (2 ^ 32) (int32ToUInt32 pts)] at this
  exact this.symm

/-- The high 32 bits of a well-formed key recover the unsigned pts. -/
theorem key_div (u s : Nat) (h : s < 2 ^ 32) :
    (u * 2 ^ 32 + s) / 2 ^ 32 = u := by
  rw [Nat.mul_comm, Nat.mul_add_div (by norm_num), Nat.div_eq_of_lt h,
    Nat.add_zero]

/-- The low 32 bits of a well-formed key recover the insertion tag. -/
theorem key_mod (u s : Nat) (h : s < 2 ^ 32) :
    (u * 2 ^ 32 + s) % 2 ^ 32 = s := by
  rw [Nat.mul_comm, Nat.mul_add_mod, Nat.mod_eq_of_lt h]

/-! The structural queue invariant through every operation (while the
insertion counter stays below `2^32`). -/

/-- A state with an empty pending queue satisfies the structural invariant. -/
theorem sinv_nil (w : Waiter) (h : w.queue = []) : Sinv w := by
  constructor
  · rw [show SortedKeys w.queue = SortedKeys ([] : List (Nat × PtsSkippedQueue)) by rw [h]]
    exact List.Pairwise.nil
  · intro e he
    rw [h] at he
    cases he

/-- The structural invariant transports along states agreeing on the queue
maps, with a possibly larger insertion counter. -/
theorem sinv_congr {w w' : Waiter} (h : Sinv w)
    (hq : w'.queue = w.queue) (h1 : w'.updateQueue = w.updateQueue)
    (h2 : w'.updatesQueue = w.updatesQueue)
    (hsk : w.skippedKey ≤ w'.skippedKey) : Sinv w' := by
  constructor
  · rw [show SortedKeys w'.queue = SortedKeys w.queue by rw [hq]]
    exact h.1
  · intro e he
    rw [hq] at he
    obtain ⟨p, s, pl, hs1, hs2, hs3, hk, hl1, hl2⟩ := h.2 e he
    exact ⟨p, s, pl, hs1, le_trans hs2 hsk, hs3, hk,
      fun hh => h1 ▸ hl1 hh, fun hh => h2 ▸ hl2 hh⟩

/-- Buffering a single update preserves the structural invariant and advances
the insertion counter by one. -/
theorem sinv_bufferUpdate (w : Waiter) (pts : Int) (pl : Payload)
    (h : Sinv w) (hsk : w.skippedKey + 1 < 2 ^ 32) :
    Sinv (bufferUpdate w pts pl) ∧
    (bufferUpdate w pts pl).skippedKey = w.skippedKey + 1 := by
  have hm : (w.skippedKey + 1) % 2 ^ 64 = w.skippedKey + 1 :=
    Nat.mod_eq_of_lt (lt_trans hsk (by norm_num))
  have hkey := ptsKeyVal_eq w.skippedKey pts hsk
  refine ⟨⟨?_, ?_⟩, ?_⟩
  · show SortedKeys (qmapInsert (ptsKeyVal w.skippedKey pts)
      PtsSkippedQueue.SkippedUpdate w.queue)
    exact qmapInsert_sorted _ _ _ h.1
  · intro e he
    rcases mem_qmapInsert _ _ _ he with rfl | hold
    · refine ⟨pts, w.skippedKey + 1, pl, by omega, ?_, hsk, hkey, ?_, ?_⟩
      · show w.skippedKey + 1 ≤ (w.skippedKey + 1) % 2 ^ 64
        rw [hm]
      · intro _
        show qmapLookup (ptsKeyVal w.skippedKey pts)
          (qmapInsert (ptsKeyVal w.skippedKey pts) (pts, pl) w.updateQueue) =
          some (pts, pl)
        exact qmapLookup_insert_self _ _ _
      · intro hh
        cases hh
    · obtain ⟨p, s, pl', hs1, hs2, hs3, hk, hl1, hl2⟩ := h.2 e hold
      by_cases hek : e.1 = ptsKeyVal w.skippedKey pts
      · rcases e with ⟨ek, kind⟩
        cases kind
        · refine ⟨pts, w.skippedKey + 1, pl, by omega, ?_, hsk, ?_, ?_, ?_⟩
          · show w.skippedKey + 1 ≤ (w.skippedKey + 1) % 2 ^ 64
            rw [hm]
          · rw [show ek = ptsKeyVal w.skippedKey pts from hek, hkey]
          · intro _
            show qmapLookup ek
              (qmapInsert (ptsKeyVal w.skippedKey pts) (pts, pl)
                w.updateQueue) = some (pts, pl)
            rw [show ek = ptsKeyVal w.skippedKey pts from hek]
            exact qmapLookup_insert_self _ _ _
          · intro hh
            cases hh
        · refine ⟨p, s, pl', hs1, ?_, hs3, hk, ?_, ?_⟩
          · show s ≤ (w.skippedKey + 1) % 2 ^ 64
            rw [hm]
            omega
          · intro hh
            cases hh
          · intro _
            exact hl2 rfl
      · refine ⟨p, s, pl', hs1, ?_, hs3, hk, ?_, ?_⟩
        · show s ≤ (w.skippedKey + 1) % 2 ^ 64
          rw [hm]
          omega
        · intro hh
          show qmapLookup e.1
            (qmapInsert (ptsKeyVal w.skippedKey pts) (pts, pl)
              w.updateQueue) = some (p, pl')
          rw [qmapLookup_insert_ne hek]
          exact hl1 hh
        · intro hh
          exact hl2 hh
  · show (w.skippedKey + 1) % 2 ^ 64 = w.skippedKey + 1
    exact hm

/-- Buffering a batch preserves the structural invariant and advances the
insertion counter by one. -/
theorem sinv_bufferUpdates (w : Waiter) (pts : Int) (pl : Payload)
    (h : Sinv w) (hsk : w.skippedKey + 1 < 2 ^ 32) :
    Sinv (bufferUpdates w pts pl) ∧
    (bufferUpdates w pts pl).skippedKey = w.skippedKey + 1 := by
  have hm : (w.skippedKey + 1) % 2 ^ 64 = w.skippedKey + 1 :=
    Nat.mod_eq_of_lt (lt_trans hsk (by norm_num))
  have hkey := ptsKeyVal_eq w.skippedKey pts hsk
  refine ⟨⟨?_, ?_⟩, ?_⟩
  · show SortedKeys (qmapInsert (ptsKeyVal w.skippedKey pts)
      PtsSkippedQueue.SkippedUpdates w.queue)
    exact qmapInsert_sorted _ _ _ h.1
  · intro e he
    rcases mem_qmapInsert _ _ _ he with rfl | hold
    · refine ⟨pts, w.skippedKey + 1, pl, by omega, ?_, hsk, hkey, ?_, ?_⟩
      · show w.skippedKey + 1 ≤ (w.skippedKey + 1) % 2 ^ 64
        rw [hm]
      · intro hh
        cases hh
      · intro _
        show qmapLookup (ptsKeyVal w.skippedKey pts)
          (qmapInsert (ptsKeyVal w.skippedKey pts) (pts, pl) w.updatesQueue) =
          some (pts, pl)
        exact qmapLookup_insert_self _ _ _
    · obtain ⟨p, s, pl', hs1, hs2, hs3, hk, hl1, hl2⟩ := h.2 e hold
      by_cases hek : e.1 = ptsKeyVal w.skippedKey pts
      · rcases e with ⟨ek, kind⟩
        cases kind
        · refine ⟨p, s, pl', hs1, ?_, hs3, hk, ?_, ?_⟩
          · show s ≤ (w.skippedKey + 1) % 2 ^ 64
            rw [hm]
            omega
          · intro _
            exact hl1 rfl
          · intro hh
            cases hh
        · refine ⟨pts, w.skippedKey + 1, pl, by omega, ?_, hsk, ?_, ?_, ?_⟩
          · show w.skippedKey + 1 ≤ (w.skippedKey + 1) % 2 ^ 64
            rw [hm]
          · rw [show ek = ptsKeyVal w.skippedKey pts from hek, hkey]
          · intro hh
            cases hh
          · intro _
            show qmapLookup ek
              (qmapInsert (ptsKeyVal w.skippedKey pts) (pts, pl)
                w.updatesQueue) = some (pts, pl)
            rw [show ek = ptsKeyVal w.skippedKey pts from hek]
            exact qmapLookup_insert_self _ _ _
      · refine ⟨p, s, pl', hs1, ?_, hs3, hk, ?_, ?_⟩
        · show s ≤ (w.skippedKey + 1) % 2 ^ 64
          rw [hm]
          omega
        · intro hh
          exact hl1 hh
        · intro hh
          show qmapLookup e.1
            (qmapInsert (ptsKeyVal w.skippedKey pts) (pts, pl)
              w.updatesQueue) = some (p, pl')
          rw [qmapLookup_insert_ne hek]
          exact hl2 hh
  · show (w.skippedKey + 1) % 2 ^ 64 = w.skippedKey + 1
    exact hm

/-- A flush preserves the structural invariant without touching the insertion
counter. -/
theorem sinv_applySkippedUpdates (w : Waiter) (h : Sinv w) :
    Sinv (applySkippedUpdates w).1 ∧
    (applySkippedUpdates w).1.skippedKey = w.skippedKey := by
  rcases applySkippedUpdates_cases w with ⟨_, hc⟩ | ⟨_, hq, hc⟩ | ⟨_, _, hc⟩
  · rw [hc]
    exact ⟨h, rfl⟩
  · rw [hc]
    exact ⟨sinv_congr h rfl rfl rfl (le_refl _), rfl⟩
  · rw [hc]
    exact ⟨sinv_nil _ rfl, rfl⟩

/-- The gap check preserves the structural invariant and the counter. -/
theorem sinv_check (w : Waiter) (pts count : Int) (h : Sinv w) :
    Sinv (check w pts count).2.1 ∧
    (check w pts count).2.1.skippedKey = w.skippedKey := by
  obtain ⟨hq, h1, h2, hsk, _, _, _⟩ := check_frame w pts count
  exact ⟨sinv_congr h hq h1 h2 (le_of_eq hsk.symm), hsk⟩

/-- `updated` (single) preserves the structural invariant, advancing the
counter at most once. -/
theorem sinv_updatedSingle (w : Waiter) (pts count : Int) (pl : Payload)
    (h : Sinv w) (hsk : w.skippedKey + 1 < 2 ^ 32) :
    Sinv (updatedSingle w pts count pl).2.1 ∧
    (updatedSingle w pts count pl).2.1.skippedKey ≤ w.skippedKey + 1 := by
  simp only [updatedSingle]
  split
  · exact ⟨h, Nat.le_add_right _ _⟩
  · split
    · exact ⟨h, Nat.le_add_right _ _⟩
    · split
      · obtain ⟨hs, he⟩ := sinv_check w pts count h
        exact ⟨hs, le_trans (le_of_eq he) (Nat.le_add_right _ _)⟩
      · obtain ⟨hs, he⟩ := sinv_check w pts count h
        obtain ⟨hb, hbe⟩ := sinv_bufferUpdate _ pts pl hs (by omega)
        exact ⟨hb, le_of_eq (hbe.trans (by rw [he]))⟩

/-- `updated` (batch) preserves the structural invariant, advancing the
counter at most once. -/
theorem sinv_updatedBatch (w : Waiter) (pts count : Int) (pl : Payload)
    (h : Sinv w) (hsk : w.skippedKey + 1 < 2 ^ 32) :
    Sinv (updatedBatch w pts count pl).2.1 ∧
    (updatedBatch w pts count pl).2.1.skippedKey ≤ w.skippedKey + 1 := by
  simp only [updatedBatch]
  split
  · exact ⟨h, Nat.le_add_right _ _⟩
  · split
    · exact ⟨h, Nat.le_add_right _ _⟩
    · split
      · obtain ⟨hs, he⟩ := sinv_check w pts count h
        exact ⟨hs, le_trans (le_of_eq he) (Nat.le_add_right _ _)⟩
      · obtain ⟨hs, he⟩ := sinv_check w pts count h
        obtain ⟨hb, hbe⟩ := sinv_bufferUpdates _ pts pl hs (by omega)
        exact ⟨hb, le_of_eq (hbe.trans (by rw [he]))⟩

/-- `updated` (payload-less) preserves the structural invariant and the
counter. -/
theorem sinv_updatedNone (w : Waiter) (pts count : Int)
    (h : Sinv w) :
    Sinv (updatedNone w pts count).2.1 ∧
    (updatedNone w pts count).2.1.skippedKey = w.skippedKey := by
  simp only [updatedNone]
  split
  · exact ⟨h, rfl⟩
  · split
    · exact ⟨h, rfl⟩
    · exact sinv_check w pts count h

/-- The single-update ingest preserves the structural invariant, advancing
the counter at most twice. -/
theorem sinv_updateAndApplySingle (w : Waiter) (pts count : Int) (pl : Payload)
    (h : Sinv w) (hsk : w.skippedKey + 2 < 2 ^ 32) :
    Sinv (updateAndApplySingle w pts count pl).2.1 ∧
    (updateAndApplySingle w pts count pl).2.1.skippedKey ≤ w.skippedKey + 2 := by
  obtain ⟨h1, he1⟩ := sinv_updatedSingle w pts count pl h (by omega)
  simp only [updateAndApplySingle]
  split
  · exact ⟨h1, le_trans he1 (by omega)⟩
  · split
    · exact ⟨h1, le_trans he1 (by omega)⟩
    · obtain ⟨hb, hbe⟩ := sinv_bufferUpdate _ pts pl h1 (by omega)
      obtain ⟨ha, hae⟩ := sinv_applySkippedUpdates _ hb
      exact ⟨ha, le_trans (le_of_eq (hae.trans hbe))
        (Nat.add_le_add_right he1 1)⟩

/-- The batch ingest preserves the structural invariant, advancing the counter
at most twice. -/
theorem sinv_updateAndApplyBatch (w : Waiter) (pts count : Int) (pl : Payload)
    (h : Sinv w) (hsk : w.skippedKey + 2 < 2 ^ 32) :
    Sinv (updateAndApplyBatch w pts count pl).2.1 ∧
    (updateAndApplyBatch w pts count pl).2.1.skippedKey ≤ w.skippedKey + 2 := by
  obtain ⟨h1, he1⟩ := sinv_updatedBatch w pts count pl h (by omega)
  simp only [updateAndApplyBatch]
  split
  · exact ⟨h1, le_trans he1 (by omega)⟩
  · split
    · exact ⟨h1, le_trans he1 (by omega)⟩
    · obtain ⟨hb, hbe⟩ := sinv_bufferUpdates _ pts pl h1 (by omega)
      obtain ⟨ha, hae⟩ := sinv_applySkippedUpdates _ hb
      exact ⟨ha, le_trans (le_of_eq (hae.trans hbe))
        (Nat.add_le_add_right he1 1)⟩

/-- The payload-less ingest preserves the structural invariant and the
counter. -/
theorem sinv_updateAndApplyNone (w : Waiter) (pts count : Int)
    (h : Sinv w) :
    Sinv (updateAndApplyNone w pts count).2.1 ∧
    (updateAndApplyNone w pts count).2.1.skippedKey = w.skippedKey := by
  obtain ⟨h1, he1⟩ := sinv_updatedNone w pts count h
  simp only [updateAndApplyNone]
  split
  · exact ⟨h1, he1⟩
  · obtain ⟨ha, hae⟩ := sinv_applySkippedUpdates _ h1
    exact ⟨ha, hae.trans he1⟩

/-- Every operation preserves the structural invariant, advancing the counter
at most twice. -/
theorem sinv_stepT (w : Waiter) (op : Op) (h : Sinv w)
    (hsk : w.skippedKey + 2 < 2 ^ 32) :
    Sinv (stepT w op).1 ∧ (stepT w op).1.skippedKey ≤ w.skippedKey + 2 := by
  cases op with
  | ingestSingle pts count pl =>
      exact sinv_updateAndApplySingle w pts count pl h hsk
  | ingestBatch pts count pl =>
      exact sinv_updateAndApplyBatch w pts count pl h hsk
  | ingestNone pts count =>
      obtain ⟨hs, he⟩ := sinv_updateAndApplyNone w pts count h
      exact ⟨hs, le_trans (le_of_eq he) (Nat.le_add_right _ _)⟩
  | flush =>
      obtain ⟨hs, he⟩ := sinv_applySkippedUpdates w h
      exact ⟨hs, le_trans (le_of_eq he) (Nat.le_add_right _ _)⟩
  | reset => exact ⟨sinv_nil _ rfl, Nat.le_add_right _ _⟩
  | setSkipped ms =>
      show Sinv (setWaitingForSkipped w ms).1 ∧
        (setWaitingForSkipped w ms).1.skippedKey ≤ w.skippedKey + 2
      unfold setWaitingForSkipped
      split
      · exact ⟨sinv_congr h rfl rfl rfl (le_refl _), Nat.le_add_right _ _⟩
      · exact ⟨sinv_congr h rfl rfl rfl (le_refl _), Nat.le_add_right _ _⟩
  | setPoll ms =>
      show Sinv (setWaitingForShortPoll w ms).1 ∧
        (setWaitingForShortPoll w ms).1.skippedKey ≤ w.skippedKey + 2
      unfold setWaitingForShortPoll
      split
      · exact ⟨sinv_congr h rfl rfl rfl (le_refl _), Nat.le_add_right _ _⟩
      · exact ⟨sinv_congr h rfl rfl rfl (le_refl _), Nat.le_add_right _ _⟩

/-- A run of at most `2^31 - sk/2` further operations keeps the structural
invariant, with the insertion counter bounded by two per operation. -/
theorem sinv_run (ops : List Op) : ∀ w : Waiter, Sinv w →
    w.skippedKey + 2 * ops.length < 2 ^ 32 →
    Sinv (run ops w) ∧
    (run ops w).skippedKey ≤ w.skippedKey + 2 * ops.length := by
  induction ops with
  | nil => intro w h _; exact ⟨h, Nat.le_refl _⟩
  | cons o os ih =>
    intro w h hb
    rw [List.length_cons] at hb
    have hstep := sinv_stepT w o h (by omega)
    have hrest := ih (stepT w o).1 hstep.1 (by omega)
    refine ⟨hrest.1, ?_⟩
    show (run os (stepT w o).1).skippedKey ≤ w.skippedKey + 2 * (o :: os).length
    rw [List.length_cons]
    omega

/-! Trace lemmas. -/

/-- The apply-events of a concatenation. -/
theorem applies_append (a b : List Event) :
    applies (a ++ b) = applies a ++ applies b :=
  List.filter_append _ _

/-- The applied pts of a concatenation. -/
theorem appliedPts_append (a b : List Event) :
    appliedPts (a ++ b) = appliedPts a ++ appliedPts b :=
  List.filterMap_append _ _ _

/-- The timer re-derivation emits no applier calls. -/
theorem applies_checkForWaiting (w : Waiter) :
    applies (checkForWaiting w) = [] := by
  unfold checkForWaiting
  split <;> rfl

/-- The timer re-derivation applies no pts. -/
theorem appliedPts_checkForWaiting (w : Waiter) :
    appliedPts (checkForWaiting w) = [] := by
  unfold checkForWaiting
  split <;> rfl

/-- Every event of a drain is an applier call. -/
theorem applies_applyQueued (w : Waiter) :
    applies (applyQueued w) = applyQueued w := by
  unfold applyQueued
  suffices h : ∀ l : List (Nat × PtsSkippedQueue),
      applies (l.map (applyEntry w)) = l.map (applyEntry w) from h w.queue
  intro l
  induction l with
  | nil => rfl
  | cons e t ih =>
    rcases e with ⟨k, kd⟩
    cases kd <;>
      simp only [List.map_cons, applies, List.filter_cons, applyEntry] <;>
      simpa [applies] using ih

/-- The pts tags a drain hands to the applier, one per queue entry in
order. -/
theorem appliedPts_applyQueued (w : Waiter) :
    appliedPts (applyQueued w) = w.queue.map (entryPts w) := by
  unfold applyQueued
  suffices h : ∀ l : List (Nat × PtsSkippedQueue),
      appliedPts (l.map (applyEntry w)) = l.map (entryPts w) from h w.queue
  intro l
  induction l with
  | nil => rfl
  | cons e t ih =>
    rcases e with ⟨k, kd⟩
    cases kd <;>
      simp only [List.map_cons, appliedPts, List.filterMap_cons, applyEntry,
        entryPts] <;>
      simpa [appliedPts, entryPts] using ih

/-- An empty queue drains to nothing. -/
theorem applyQueued_nil (w : Waiter) (h : w.queue = []) :
    applyQueued w = [] := by
  unfold applyQueued
  rw [h]
  rfl

/-- For a well-tagged entry the unsigned image of the applied pts is the high
32 bits of the key. -/
theorem entryPts_div (w : Waiter) (e : Nat × PtsSkippedQueue)
    (h : TagOK w e) : int32ToUInt32 (entryPts w e) = e.1 / 2 ^ 32 := by
  obtain ⟨p, s, pl, hs1, hs2, hs3, hk, hl1, hl2⟩ := h
  rcases e with ⟨k, kd⟩
  cases kd
  · have hl := hl1 rfl
    show int32ToUInt32 (qmapValue k (0, 0) w.updateQueue).1 = k / 2 ^ 32
    rw [qmapValue_of_lookup _ hl]
    simp only [] at hk
    rw [hk, key_div _ _ hs3]
  · have hl := hl2 rfl
    show int32ToUInt32 (qmapValue k (0, 0) w.updatesQueue).1 = k / 2 ^ 32
    rw [qmapValue_of_lookup _ hl]
    simp only [] at hk
    rw [hk, key_div _ _ hs3]

/-! Claim theorems (with counterexamples and witnesses). -/

/-- C1: no payload is permanently stranded.  For every state reachable by a
sequence of ingest/flush operations, whenever the pending queue is non-empty
(in particular once the gap has closed, `confirmed = lastSeen`), the next
flush empties the queue entirely and hands the applier exactly the buffered
payloads, in queue order.  (The theorem needs no `confirmed = lastSeen`
hypothesis: along ingest/flush runs the gap-closing ingest itself drains the
queue, so any non-empty queue is fully drained by the next flush.) -/
theorem c1_flush_drains_queue (w : Waiter) (h : ReachableIF w)
    (hq : w.queue ≠ []) :
    (applySkippedUpdates w).1.queue = [] ∧
    applies (applySkippedUpdates w).2 = applyQueued w := by
  obtain ⟨ops, hall, hrun⟩ := h
  subst hrun
  have hqw : QueueWaiting (run ops initial) :=
    run_qw ops initial hall (Or.inl rfl)
  have hw : (run ops initial).waitingForSkipped = true := by
    rcases hqw with hq' | hw
    · exact absurd hq' hq
    · exact hw
  rcases applySkippedUpdates_cases (run ops initial) with
    ⟨hf, _⟩ | ⟨_, hq', _⟩ | ⟨_, _, hc⟩
  · rw [hf] at hw
    cases hw
  · exact absurd hq' hq
  · simp only [hc]
    constructor
    · rfl
    · rw [applies_append, applies_checkForWaiting, applies_applyQueued]
      rfl

/-- C1 witness: after a baseline and one buffered gap update, the flush drains
the queued payload. -/
theorem c1_witness :
    (run c1Ops initial).queue ≠ [] ∧
    (applySkippedUpdates (run c1Ops initial)).1.queue = [] ∧
    applies (applySkippedUpdates (run c1Ops initial)).2 =
      applyQueued (run c1Ops initial) :=
  ⟨by decide,
   c1_flush_drains_queue (run c1Ops initial) ⟨c1Ops, by decide, rfl⟩ (by decide)⟩

/-- C9: the invariant `confirmed <= lastSeen` holds in every reachable state,
i.e. after every sequence of ingest (single/batch/payload-less), flush, reset
and waiting-setter operations starting from the fresh waiter. -/
theorem c9_confirmed_le_lastSeen (w : Waiter) (h : Reachable w) :
    w.good ≤ w.last := by
  obtain ⟨ops, hrun⟩ := h
  subst hrun
  exact run_goodle ops initial (le_refl 0)

/-- C9 witness: the invariant at a concrete reachable state. -/
theorem c9_witness :
    Reachable (run c1Ops initial) ∧
    (run c1Ops initial).good ≤ (run c1Ops initial).last :=
  ⟨⟨c1Ops, rfl⟩, c9_confirmed_le_lastSeen _ ⟨c1Ops, rfl⟩⟩

/-- C3 counterexample: the payloads handed to the applier are not applied in
strictly ascending pts order over a whole run.  After a baseline at 10, a
count-0 update at pts 100 is applied inline during a mismatch, then pts 11 is
buffered and applied only by the later drain: the applied pts sequence is
[10, 100, 11, 12], which is not strictly ascending. -/
theorem c3_counterexample :
    appliedPts (runT c3Ops initial).2 = [10, 100, 11, 12] ∧
    ¬ List.Chain' (fun a b : Int => a < b)
      (appliedPts (runT c3Ops initial).2) := by
  have he : appliedPts (runT c3Ops initial).2 = [10, 100, 11, 12] := by decide
  refine ⟨he, ?_⟩
  rw [he]
  norm_num [List.chain'_cons, List.chain'_singleton]

/-- C3 amended: within a single drain of the pending queue the payloads are
applied in nondecreasing unsigned-32-bit pts order (`pts mod 2^32`, so
negative pts order after non-negative ones; ties drain FIFO), in any
execution of fewer than `2^31` operations; ordering across the whole run (in
particular for updates applied inline, such as count-0 mismatch
pass-throughs), and strictness on equal pts, do not hold — see the
counterexample. -/
theorem c3_amended_drain_order (ops : List Op) (h : ops.length < 2 ^ 31) :
    List.Chain' (fun a b => int32ToUInt32 a ≤ int32ToUInt32 b)
      (appliedPts (applySkippedUpdates (run ops initial)).2) := by
  have h32 : (2 : ℕ) ^ 32 = 4294967296 := by norm_num
  have h31 : (2 : ℕ) ^ 31 = 2147483648 := by norm_num
  have hbound : initial.skippedKey + 2 * ops.length < 2 ^ 32 := by
    show 0 + 2 * ops.length < 2 ^ 32
    omega
  have hsinv := (sinv_run ops initial (sinv_nil initial rfl) hbound).1
  rcases applySkippedUpdates_cases (run ops initial) with
    ⟨_, hc⟩ | ⟨_, hq, hc⟩ | ⟨_, hqn, hc⟩
  · simp only [hc]
    exact List.chain'_nil
  · simp only [hc]
    rw [appliedPts_checkForWaiting]
    exact List.chain'_nil
  · simp only [hc]
    rw [appliedPts_append, appliedPts_checkForWaiting, List.nil_append,
      appliedPts_applyQueued]
    apply List.Pairwise.chain'
    rw [List.pairwise_map]
    refine List.Pairwise.imp_of_mem ?_ hsinv.1
    intro e1 e2 he1 he2 hlt
    have t1 := entryPts_div (run ops initial) e1 (hsinv.2 e1 he1)
    have t2 := entryPts_div (run ops initial) e2 (hsinv.2 e2 he2)
    rw [t1, t2]
    exact Nat.div_le_div_right (le_of_lt hlt)

/-- C3 witness: the amended drain-order property at a concrete reachable
state with a non-trivial drain. -/
theorem c3_amended_witness :
    c1Ops.length < 2 ^ 31 ∧
    List.Chain' (fun a b => int32ToUInt32 a ≤ int32ToUInt32 b)
      (appliedPts (applySkippedUpdates (run c1Ops initial)).2) :=
  ⟨by decide, c3_amended_drain_order c1Ops (by decide)⟩

/-- C6: in every execution of fewer than `2^31` operations (so that the
64-bit packed key's low 32-bit insertion-counter field cannot flood into the
pts field), the pending queue's keys are strictly ascending and unique; every
buffered entry's key packs the unsigned pts image into the high 32 bits and
the positive insertion tag into the low 32 bits and resolves to its stored
payload; among entries with equal pts image, key order (= drain order) agrees
with insertion order (FIFO on ties); and a flush drains exactly the queued
payloads in ascending key order. -/
theorem c6_pending_queue_keys (ops : List Op) (h : ops.length < 2 ^ 31) :
    C6Concl (run ops initial) := by
  have h32 : (2 : ℕ) ^ 32 = 4294967296 := by norm_num
  have h31 : (2 : ℕ) ^ 31 = 2147483648 := by norm_num
  have hbound : initial.skippedKey + 2 * ops.length < 2 ^ 32 := by
    show 0 + 2 * ops.length < 2 ^ 32
    omega
  have hsinv := (sinv_run ops initial (sinv_nil initial rfl) hbound).1
  refine ⟨hsinv.1, ?_, ?_, ?_, ?_⟩
  · have hp : List.Pairwise
        (fun a b : Nat × PtsSkippedQueue => a.1 ≠ b.1)
        (run ops initial).queue :=
      hsinv.1.imp (fun hlt => Nat.ne_of_lt hlt)
    exact List.pairwise_map.mpr hp
  · intro e he
    obtain ⟨p, s, pl, hs1, hs2, hs3, hk, hl1, hl2⟩ := hsinv.2 e he
    refine ⟨p, s, pl, hs1, hs2, hs3, hk, ?_, ?_, hl1, hl2⟩
    · rw [hk]
      exact key_div _ _ hs3
    · rw [hk]
      exact key_mod _ _ hs3
  · intro e1 he1 e2 he2 hdiv
    have d1 := Nat.div_add_mod e1.1 (2 ^ 32)
    have d2 := Nat.div_add_mod e2.1 (2 ^ 32)
    rw [h32] at d1 d2 hdiv
    constructor
    · intro hm
      rw [h32] at hm
      omega
    · intro hk
      rw [h32]
      omega
  · intro hw
    rcases applySkippedUpdates_cases (run ops initial) with
      ⟨hf, _⟩ | ⟨_, hq, hc⟩ | ⟨_, _, hc⟩
    · rw [hf] at hw
      cases hw
    · simp only [hc]
      rw [applies_checkForWaiting, applyQueued_nil _ hq]
    · simp only [hc]
      rw [applies_append, applies_checkForWaiting, applies_applyQueued]
      rfl

/-- C6 witness: the pending-queue properties at a concrete reachable state
with one buffered entry. -/
theorem c6_witness : c1Ops.length < 2 ^ 31 ∧ C6Concl (run c1Ops initial) :=
  ⟨by decide, c6_pending_queue_keys c1Ops (by decide)⟩

/-- C2 counterexample: a flush of the pending queue proceeds (applies a
buffered payload) while the poll waiting reason is still set.  The state is
reachable: baseline, one buffered gap update (gap-fill reason set), then the
caller arms the short-poll reason; the flush then drains although
`awaitingPoll` is still true, contradicting "draining happens only when both
reasons are clear". -/
theorem c2_counterexample :
    (run c2Ops initial).waitingForShortPoll = true ∧
    (run c2Ops initial).waitingForSkipped = true ∧
    (run c2Ops initial).queue ≠ [] ∧
    applies (applySkippedUpdates (run c2Ops initial)).2 =
      [Event.applyUpdate 20 8] ∧
    applies (applySkippedUpdates (run c2Ops initial)).2 ≠ [] := by
  decide

/-- C2 amended: cancelling one waiting reason re-derives whether any reason
remains and sends the `-1` sentinel to the timer service exactly when none
remains; a flush is a no-op while the gap-fill reason is clear, and otherwise
clears that one reason (re-deriving the sentinel) before draining — the poll
reason does not block the drain (see the counterexample). -/
theorem c2_amended_waiting_reasons (w : Waiter) :
    ((setWaitingForSkipped w (-1)).2 =
      if w.waitingForShortPoll = true then [] else [Event.timer (-1)]) ∧
    ((setWaitingForShortPoll w (-1)).2 =
      if w.waitingForSkipped = true then [] else [Event.timer (-1)]) ∧
    (w.waitingForSkipped = false → applySkippedUpdates w = (w, [])) ∧
    (w.waitingForSkipped = true →
      (applySkippedUpdates w).1.waitingForSkipped = false ∧
      (applySkippedUpdates w).2 =
        (if w.waitingForShortPoll = true then [] else [Event.timer (-1)]) ++
          applyQueued w) := by
  refine ⟨?_, ?_, ?_, ?_⟩
  · by_cases hp : w.waitingForShortPoll = true <;>
      simp [setWaitingForSkipped, checkForWaiting, hp]
  · by_cases hs : w.waitingForSkipped = true <;>
      simp [setWaitingForShortPoll, checkForWaiting, hs]
  · intro hw
    unfold applySkippedUpdates
    rw [if_pos hw]
  · intro hw
    have hs : setWaitingForSkipped w (-1) =
        ({ w with waitingForSkipped := false },
         checkForWaiting { w with waitingForSkipped := false }) := by
      simp [setWaitingForSkipped]
    unfold applySkippedUpdates
    rw [if_neg (by simp [hw]), hs]
    by_cases hq : w.queue = []
    · rw [if_pos (by simpa using hq)]
      by_cases hp : w.waitingForShortPoll = true <;>
        simp [checkForWaiting, applyQueued, hq, hp]
    · rw [if_neg (by simpa using hq)]
      by_cases hp : w.waitingForShortPoll = true <;>
        simp [checkForWaiting, applyQueued, clearSkippedUpdates, hp] <;>
        exact fun a b _ => rfl

/-- C2 witness: the amended flush behaviour on a state with both reasons set
and one buffered payload. -/
theorem c2_amended_witness :
    c2State.waitingForSkipped = true ∧
    c2State.waitingForShortPoll = true ∧
    (applySkippedUpdates c2State).1.waitingForSkipped = false ∧
    (applySkippedUpdates c2State).2 = [Event.applyUpdate 3 9] :=
  ⟨rfl, rfl, ((c2_amended_waiting_reasons c2State).2.2.2 rfl).1, by
    have h := ((c2_amended_waiting_reasons c2State).2.2.2 rfl).2
    simpa using h⟩

/-- C5: the gap check on an initialized state computes
`lastSeen := max(lastSeen, pts)` and `countAccumulated += count`; on exact
match it confirms (`confirmed := lastSeen`) and reports in-sequence with no
timer; when the accumulated count overshoots it arms the short re-check timer
(1 ms) and when the high-water mark is ahead it arms the standard gap timeout,
in both mismatch cases leaving `confirmed` unchanged, setting the gap-fill
reason, and classifying the update as a gap (buffered) exactly unless
`count = 0` (in-sequence no-op). -/
theorem c5_gap_check (w : Waiter) (pts count : Int) (h : w.inited = true) :
    (check w pts count).2.1.last = max w.last pts ∧
    (check w pts count).2.1.count = w.count + count ∧
    (max w.last pts = w.count + count →
      (check w pts count).1 = true ∧
      (check w pts count).2.1.good = max w.last pts ∧
      (check w pts count).2.2 = []) ∧
    (max w.last pts < w.count + count →
      (check w pts count).2.2 = [Event.timer 1] ∧
      (check w pts count).2.1.waitingForSkipped = true ∧
      (check w pts count).2.1.good = w.good ∧
      ((check w pts count).1 = true ↔ count = 0)) ∧
    (w.count + count < max w.last pts →
      (check w pts count).2.2 = [Event.timer WaitForSkippedTimeout] ∧
      (check w pts count).2.1.waitingForSkipped = true ∧
      (check w pts count).2.1.good = w.good ∧
      ((check w pts count).1 = true ↔ count = 0)) := by
  rcases lt_trichotomy (max w.last pts) (w.count + count) with hlt | heq | hgt
  · rw [check_lt w pts count h hlt]
    refine ⟨rfl, rfl, ?_, ?_, ?_⟩
    · intro heq
      omega
    · intro _
      exact ⟨rfl, rfl, rfl, by simp⟩
    · intro hgt
      omega
  · rw [check_eq w pts count h heq]
    refine ⟨rfl, rfl, ?_, ?_, ?_⟩
    · intro _
      exact ⟨rfl, rfl, rfl⟩
    · intro hlt
      omega
    · intro hgt
      omega
  · rw [check_gt w pts count h hgt]
    refine ⟨rfl, rfl, ?_, ?_, ?_⟩
    · intro heq
      omega
    · intro hlt
      omega
    · intro _
      exact ⟨rfl, rfl, rfl, by simp⟩

/-- C5 witness: the gap check at the baseline state with a jump (pts 20,
count 4): high-water mark ahead, standard timeout armed, classified gap. -/
theorem c5_witness :
    baseState.inited = true ∧
    ((check baseState 20 4).2.1.last = max baseState.last 20 ∧
     (check baseState 20 4).2.1.count = baseState.count + 4 ∧
     (max baseState.last 20 = baseState.count + 4 →
       (check baseState 20 4).1 = true ∧
       (check baseState 20 4).2.1.good = max baseState.last 20 ∧
       (check baseState 20 4).2.2 = []) ∧
     (max baseState.last 20 < baseState.count + 4 →
       (check baseState 20 4).2.2 = [Event.timer 1] ∧
       (check baseState 20 4).2.1.waitingForSkipped = true ∧
       (check baseState 20 4).2.1.good = baseState.good ∧
       ((check baseState 20 4).1 = true ↔ (4 : Int) = 0)) ∧
     (baseState.count + 4 < max baseState.last 20 →
       (check baseState 20 4).2.2 = [Event.timer WaitForSkippedTimeout] ∧
       (check baseState 20 4).2.1.waitingForSkipped = true ∧
       (check baseState 20 4).2.1.good = baseState.good ∧
       ((check baseState 20 4).1 = true ↔ (4 : Int) = 0))) :=
  ⟨rfl, c5_gap_check baseState 20 4 rfl⟩

/-- C7: while a flush is in progress (`applySkippedLevel > 0`) or an external
resync request is in flight (`_requesting`), every ingest reports Applied
(true) without consulting the confirmed watermark: all three `updated`
overloads return true leaving the state untouched, and `updateAndApply`
applies the payload inline — in particular a stale update with
`pts <= confirmed` and `count > 0` is handed to the applier rather than
discarded.  The second hypothesis states the shape such states have at those
points: inside a drain the flush has already cleared the gap-fill reason, and
a resync in flight implies no buffered queue. -/
theorem c7_guard_applies_inline (w : Waiter) (pts count : Int) (pl : Payload)
    (hg : w.requesting = true ∨ w.applySkippedLevel ≠ 0)
    (hc : w.waitingForSkipped = false ∨ w.queue = []) :
    updatedSingle w pts count pl = (true, w, []) ∧
    updatedBatch w pts count pl = (true, w, []) ∧
    updatedNone w pts count = (true, w, []) ∧
    updateAndApplySingle w pts count pl =
      (true, w, [Event.applyUpdate pts pl]) ∧
    updateAndApplyBatch w pts count pl =
      (true, w, [Event.applyUpdates pts pl]) ∧
    (updateAndApplyNone w pts count).1 = true ∧
    (updateAndApplyNone w pts count).2.1.good = w.good ∧
    (updateAndApplyNone w pts count).2.1.last = w.last ∧
    (updateAndApplyNone w pts count).2.1.count = w.count ∧
    (updateAndApplyNone w pts count).2.1.queue = w.queue ∧
    (updateAndApplyNone w pts count).2.1.updateQueue = w.updateQueue ∧
    (updateAndApplyNone w pts count).2.1.updatesQueue = w.updatesQueue ∧
    applies (updateAndApplyNone w pts count).2.2 = [] := by
  have hus : updatedSingle w pts count pl = (true, w, []) := by
    unfold updatedSingle
    rw [if_pos hg]
  have hub : updatedBatch w pts count pl = (true, w, []) := by
    unfold updatedBatch
    rw [if_pos hg]
  have hun : updatedNone w pts count = (true, w, []) := by
    unfold updatedNone
    rw [if_pos hg]
  refine ⟨hus, hub, hun, ?_, ?_, ?_⟩
  · rcases hc with hw | hq
    · simp [updateAndApplySingle, hus, hw]
    · simp [updateAndApplySingle, hus, hq]
  · rcases hc with hw | hq
    · simp [updateAndApplyBatch, hub, hw]
    · simp [updateAndApplyBatch, hub, hq]
  · rcases hc with hw | hq
    · have ha : applySkippedUpdates w = (w, []) := by
        unfold applySkippedUpdates
        rw [if_pos hw]
      simp [updateAndApplyNone, hun, ha, applies]
    · by_cases hw : w.waitingForSkipped = false
      · have ha : applySkippedUpdates w = (w, []) := by
          unfold applySkippedUpdates
          rw [if_pos hw]
        simp [updateAndApplyNone, hun, ha, applies]
      · have hw' : w.waitingForSkipped = true := by
          simpa using hw
        have ha : applySkippedUpdates w =
            ({ w with waitingForSkipped := false },
             checkForWaiting { w with waitingForSkipped := false }) := by
          unfold applySkippedUpdates
          rw [if_neg (by simp [hw'])]
          simp [setWaitingForSkipped, hq]
        simp [updateAndApplyNone, hun, ha, checkForWaiting, applies]

/-- C7 witness: inside a drain (`applySkippedLevel = 1`), a stale update
(pts 5 at watermark 10, count 3) is reported Applied and handed to the
applier inline. -/
theorem c7_witness :
    (c7State.requesting = true ∨ c7State.applySkippedLevel ≠ 0) ∧
    (5 : Int) ≤ c7State.good ∧
    updatedSingle c7State 5 3 9 = (true, c7State, []) ∧
    updateAndApplySingle c7State 5 3 9 =
      (true, c7State, [Event.applyUpdate 5 9]) :=
  ⟨Or.inr (by decide), by decide,
   (c7_guard_applies_inline c7State 5 3 9 (Or.inr (by decide)) (Or.inl rfl)).1,
   (c7_guard_applies_inline c7State 5 3 9 (Or.inr (by decide))
     (Or.inl rfl)).2.2.2.1⟩

end PtsWaiter
